import Mathlib

/-!
Verification of the heytom-gateway HTTP/gRPC gateway.

This file shallowly embeds the gateway's pure logic in Lean:
the HTTP request path parser, the protobuf descriptor loader's lookup
functions, the round-robin and weighted load balancers (with Go's `uint64`
counters and `int` conversions modelled exactly, including wraparound),
the connection pool's bookkeeping, the dynamic-message prototype cache,
and the control flow of the HTTP-to-gRPC transcoder and the gRPC stream
forwarder.  External effects (service discovery, dialing, RPC invocation,
protobuf JSON codec) are modelled as explicit oracle parameters; all
in-repository logic is translated from the source.
-/

namespace Gateway

/-! ## Go machine-integer model

Go's `int` is 64-bit here; `uint64` counters wrap at `2^64`, and
converting a `uint64` to `int` reinterprets the bits as two's complement.
Go's `%` on `int` truncates toward zero (the result has the sign of the
dividend), which is `Int.tmod`.
-/

/-- Reinterpret a `uint64` value (a natural number `< 2^64`) as a Go `int`
(64-bit two's complement). -/
def goIntOfUint64 (c : Nat) : Int :=
  if c < 2 ^ 63 then (c : Int) else (c : Int) - 2 ^ 64

/-- Go 64-bit signed integer addition (wraps around). -/
def goAddInt (a b : Int) : Int :=
  (a + b + 2 ^ 63) % 2 ^ 64 - 2 ^ 63

/-- Go's `%` operator on `int` (truncated toward zero). -/
def goMod (a b : Int) : Int := Int.tmod a b

theorem goIntOfUint64_of_lt {c : Nat} (h : c < 2 ^ 63) :
    goIntOfUint64 c = (c : Int) := by
  unfold goIntOfUint64
  rw [if_pos h]

theorem goAddInt_eq {a b : Int} (h1 : -(2 ^ 63) ≤ a + b) (h2 : a + b < 2 ^ 63) :
    goAddInt a b = a + b := by
  unfold goAddInt
  have h3 : 0 ≤ a + b + 2 ^ 63 := by omega
  have h4 : a + b + 2 ^ 63 < 2 ^ 64 := by omega
  rw [Int.emod_eq_of_lt h3 h4]
  omega

/-! ## HTTP request parsing (`internal/server/http/request.go`) -/

/-- The parsed HTTP request (`HTTPRequest` struct). -/
structure HTTPRequest where
  tenant : String
  serviceName : String
  methodName : String
  body : List Nat
  deriving Repr, DecidableEq

/-- `strings.Trim(path, "/")`: strip leading and trailing `/` characters. -/
def goTrimSlashes (s : String) : String :=
  String.mk (((s.toList.dropWhile (· = '/')).reverse.dropWhile (· = '/')).reverse)

/-- Core of `strings.Split` on a one-character separator, over the
character list.  `Split("", sep)` is `[""]`, and consecutive separators
produce empty components, exactly as in Go. -/
def splitCharList (c : Char) : List Char → List (List Char)
  | [] => [[]]
  | x :: xs =>
    if x = c then [] :: splitCharList c xs
    else
      match splitCharList c xs with
      | [] => [[x]]
      | h :: t => (x :: h) :: t

/-- `strings.Split(s, "/")`. -/
def goSplitSlash (s : String) : List String :=
  (splitCharList '/' s.toList).map String.mk

/-- `ParseHTTPRequest` from `internal/server/http/request.go`, translated
clause by clause: trim slashes, split on `/`, require at least three
components, require the first to be `rpc`, require non-empty method and
service names (the last two components), and set the tenant to the second
component exactly when there are more than three components. -/
def ParseHTTPRequest (path : String) (body : List Nat) : Except String HTTPRequest :=
  let path' := goTrimSlashes path
  let parts := goSplitSlash path'
  if parts.length < 3 then
    .error "invalid path format"
  else if parts.getD 0 "" ≠ "rpc" then
    .error "invalid path, expected /rpc"
  else
    let methodName := parts.getD (parts.length - 1) ""
    if methodName = "" then .error "method name cannot be empty"
    else
      let serviceName := parts.getD (parts.length - 2) ""
      if serviceName = "" then .error "service name cannot be empty"
      else
        let tenant := if parts.length > 3 then parts.getD 1 "" else ""
        .ok ⟨tenant, serviceName, methodName, body⟩

end Gateway

namespace Gateway

/-! ## Load balancers (`internal/proxy` load balancer file)

The round-robin and weighted balancers keep a `uint64` counter that is
atomically incremented on every selection; the incremented value is
converted to Go `int` and reduced with `%`.  We model the counter as a
natural number reduced mod `2^64` at each step, the conversion with
`goIntOfUint64`, and `%` with `goMod`.  A selection can return an
instance, return `nil` (empty list), or panic (index out of range);
the result type distinguishes the three.
-/

/-- `registry.ServiceInstance`. -/
structure ServiceInstance where
  id : String
  name : String
  version : String
  address : String
  port : Int
  metadata : Option (List (String × String))
  tags : List String
  deriving Repr, DecidableEq

instance : Inhabited ServiceInstance := ⟨⟨"", "", "", "", 0, none, []⟩⟩

/-- Decimal value of the leading digit run of a character list, or `none`
when there is no leading digit. -/
def digitsVal (cs : List Char) : Option Nat :=
  let ds := cs.takeWhile Char.isDigit
  if ds.isEmpty then none
  else some (ds.foldl (fun a c => 10 * a + (c.toNat - 48)) 0)

/-- Model of `fmt.Sscanf(s, "%d", &w)` scanning into a 64-bit `int`:
skip leading whitespace, read an optional sign and a non-empty digit
run, and fail when there are no digits or the value overflows `int64`.
Returns `some` of the scanned value on success (`err == nil`). -/
def goScanInt (s : String) : Option Int :=
  let cs := s.toList.dropWhile Char.isWhitespace
  match cs with
  | '-' :: rest =>
    match digitsVal rest with
    | some v => if v ≤ 2 ^ 63 then some (-(v : Int)) else none
    | none => none
  | '+' :: rest =>
    match digitsVal rest with
    | some v => if v ≤ 2 ^ 63 - 1 then some (v : Int) else none
    | none => none
  | _ =>
    match digitsVal cs with
    | some v => if v ≤ 2 ^ 63 - 1 then some (v : Int) else none
    | none => none

/-- `getWeight`: read `metadata["weight"]` as a positive integer,
returning 1 when the metadata map is nil, the key is missing, scanning
fails, or the scanned value is not positive. -/
def getWeight (inst : ServiceInstance) : Int :=
  match inst.metadata with
  | none => 1
  | some md =>
    match md.lookup "weight" with
    | none => 1
    | some ws =>
      match goScanInt ws with
      | some w => if 0 < w then w else 1
      | none => 1

/-- Outcome of one `Select` call: a nil result (empty instance list), a
runtime panic (index out of range), or a chosen instance. -/
inductive SelectResult where
  | nil : SelectResult
  | oob : SelectResult
  | inst : ServiceInstance → SelectResult
  deriving Repr, DecidableEq

/-- `RoundRobinLoadBalancer` state: the `uint64` counter. -/
structure RRState where
  counter : Nat
  deriving Repr, DecidableEq

/-- `RoundRobinLoadBalancer.Select`: return nil on an empty list,
otherwise increment the counter (wrapping as `uint64`), convert it to
`int`, and index `instances[int(index) % len(instances)]`; a negative
index is an out-of-range panic. -/
def rrSelect (s : RRState) (l : List ServiceInstance) : RRState × SelectResult :=
  if l.isEmpty then (s, .nil)
  else
    let c := (s.counter + 1) % 2 ^ 64
    let idx := goMod (goIntOfUint64 c) (l.length : Int)
    (⟨c⟩, if 0 ≤ idx ∧ idx < (l.length : Int) then
      .inst (l.getD idx.toNat default) else .oob)

/-- `k` sequential round-robin selections; `none` when any selection
fails to produce an instance (in particular on an index panic). -/
def rrRun : Nat → RRState → List ServiceInstance → Option (List ServiceInstance)
  | 0, _, _ => some []
  | k + 1, s, l =>
    match rrSelect s l with
    | (s', .inst i) => (rrRun k s' l).map (i :: ·)
    | (_, _) => none

/-- `WeightedLoadBalancer` state: the `uint64` counter. -/
structure WState where
  counter : Nat
  deriving Repr, DecidableEq

/-- `totalWeight`: sum of the instances' weights in Go `int` arithmetic
(wrapping 64-bit addition). -/
def totalWeightOf (l : List ServiceInstance) : Int :=
  l.foldl (fun acc i => goAddInt acc (getWeight i)) 0

/-- The selection loop of `WeightedLoadBalancer.Select`: accumulate
weights and return the first instance whose cumulative weight strictly
exceeds the offset. -/
def walkSelect : List ServiceInstance → Int → Int → Option ServiceInstance
  | [], _, _ => none
  | x :: xs, off, cw =>
    let cw' := goAddInt cw (getWeight x)
    if off < cw' then some x else walkSelect xs off cw'

/-- `WeightedLoadBalancer.Select`: nil on an empty list; when the total
weight is zero fall back to round-robin indexing; otherwise take
`offset = int(counter) % totalWeight` and walk the instances, falling
back to `instances[0]` when the walk is exhausted. -/
def wSelect (s : WState) (l : List ServiceInstance) : WState × SelectResult :=
  if l.isEmpty then (s, .nil)
  else
    let tw := totalWeightOf l
    if tw = 0 then
      let c := (s.counter + 1) % 2 ^ 64
      let idx := goMod (goIntOfUint64 c) (l.length : Int)
      (⟨c⟩, if 0 ≤ idx ∧ idx < (l.length : Int) then
        .inst (l.getD idx.toNat default) else .oob)
    else
      let c := (s.counter + 1) % 2 ^ 64
      let off := goMod (goIntOfUint64 c) tw
      (⟨c⟩, .inst ((walkSelect l off 0).getD (l.getD 0 default)))

/-- `k` sequential weighted selections. -/
def wRun : Nat → WState → List ServiceInstance → Option (List ServiceInstance)
  | 0, _, _ => some []
  | k + 1, s, l =>
    match wSelect s l with
    | (s', .inst i) => (wRun k s' l).map (i :: ·)
    | (_, _) => none

/-- The sequence of indices chosen by `k` round-robin selections from a
fresh balancer over `n` instances: selection `j` (1-based) picks index
`j % n`. -/
def rrIdxSeq (k n : Nat) : List Nat :=
  (List.range k).map (fun j => (j + 1) % n)

/-- The instances chosen by `k` round-robin selections from a fresh
balancer. -/
def rrSeq (k : Nat) (l : List ServiceInstance) : List ServiceInstance :=
  (rrIdxSeq k l.length).map (fun i => l.getD i default)

/-- An instance's weight as a natural number (weights are ≥ 1). -/
def weightNat (x : ServiceInstance) : Nat := (getWeight x).toNat

/-- The mathematical (non-wrapping) total weight of a list of instances. -/
def sumWeights (l : List ServiceInstance) : Nat := (l.map weightNat).sum

/-- The instance chosen by the weighted walk at a given offset, with the
source's `instances[0]` fallback. -/
def wPick (l : List ServiceInstance) (o : Nat) : ServiceInstance :=
  (walkSelect l (o : Int) 0).getD (l.getD 0 default)

/-- A concrete service instance (no metadata). -/
def instA : ServiceInstance := ⟨"a", "svc", "", "10.0.0.1", 50051, none, []⟩

/-- A concrete service instance (no metadata). -/
def instB : ServiceInstance := ⟨"b", "svc", "", "10.0.0.2", 50051, none, []⟩

/-- A concrete service instance (no metadata). -/
def instC : ServiceInstance := ⟨"c", "svc", "", "10.0.0.3", 50051, none, []⟩

/-- A concrete instance whose weight metadata is the largest `int64`. -/
def instBigW : ServiceInstance :=
  ⟨"big1", "svc", "", "10.0.0.4", 50051, some [("weight", "9223372036854775807")], []⟩

/-- A second concrete instance whose weight metadata is the largest `int64`. -/
def instBigW2 : ServiceInstance :=
  ⟨"big2", "svc", "", "10.0.0.5", 50051, some [("weight", "9223372036854775807")], []⟩

/-- A concrete instance with weight metadata `2`. -/
def instTwoW : ServiceInstance :=
  ⟨"two", "svc", "", "10.0.0.6", 50051, some [("weight", "2")], []⟩

/-- A concrete instance with weight metadata `3`. -/
def instW3 : ServiceInstance :=
  ⟨"w3", "svc", "", "10.0.0.7", 50051, some [("weight", "3")], []⟩

/-- A concrete instance with weight metadata `2`. -/
def instW2 : ServiceInstance :=
  ⟨"w2", "svc", "", "10.0.0.8", 50051, some [("weight", "2")], []⟩

/-! ## Protobuf descriptor loader (`internal/proto` descriptor file)

The loader keeps a `FileDescriptorSet`; lookups walk the files in order.
`FindServiceDescriptor` composes `package.ServiceName`;
`FindMessageDescriptor` walks each file's top-level messages and recurses
into nested types, composing dotted names by concatenation, returning the
first match.
-/

/-- `descriptorpb.MethodDescriptorProto` (the fields the gateway reads). -/
structure MethodDescriptorProto where
  name : String
  inputType : String
  outputType : String
  deriving Repr, DecidableEq

/-- `descriptorpb.ServiceDescriptorProto`. -/
structure ServiceDescriptorProto where
  name : String
  method : List MethodDescriptorProto
  deriving Repr, DecidableEq

/-- `descriptorpb.DescriptorProto`: a message with nested message types. -/
inductive DescriptorProto where
  | mk (name : String) (nestedType : List DescriptorProto)

/-- The message name. -/
def DescriptorProto.name : DescriptorProto → String
  | ⟨n, _⟩ => n

/-- The nested message types. -/
def DescriptorProto.nestedType : DescriptorProto → List DescriptorProto
  | ⟨_, ts⟩ => ts

/-- `descriptorpb.FileDescriptorProto` (the fields the gateway reads). -/
structure FileDescriptorProto where
  name : String
  package : String
  messageType : List DescriptorProto
  service : List ServiceDescriptorProto

/-- `descriptorpb.FileDescriptorSet`. -/
structure FileDescriptorSet where
  file : List FileDescriptorProto

/-- `DescriptorLoader.FindServiceDescriptor`: walk the files in order and
return the first service whose `package.ServiceName` equals `fullName`. -/
def FindServiceDescriptor (fset : FileDescriptorSet) (fullName : String) :
    Option ServiceDescriptorProto :=
  fset.file.findSome? (fun file =>
    file.service.find? (fun svc => file.package ++ "." ++ svc.name == fullName))

/-- `DescriptorLoader.FindMethodDescriptor`: resolve the service, then
return its first method named `methodName`. -/
def FindMethodDescriptor (fset : FileDescriptorSet)
    (serviceName methodName : String) : Option MethodDescriptorProto :=
  match FindServiceDescriptor fset serviceName with
  | none => none
  | some svc => svc.method.find? (fun m => m.name == methodName)

/-- The common loop of `findMessageInFile` and `findNestedMessage`: walk
a list of messages under a dotted-name prefix; if the composed name
matches return the message, otherwise recurse into its nested types with
the composed name as the new prefix; first match wins. -/
def findNestedInList (fullName : String) :
    List DescriptorProto → String → Option DescriptorProto
  | [], _ => none
  | ⟨n, nested⟩ :: rest, pfx =>
    let fn := pfx ++ "." ++ n
    if fn == fullName then some (DescriptorProto.mk n nested)
    else
      match findNestedInList fullName nested fn with
      | some r => some r
      | none => findNestedInList fullName rest pfx

/-- `findNestedMessage`: search the nested types of `msg` under prefix
`pfx`. -/
def findNestedMessage (msg : DescriptorProto) (fullName pfx : String) :
    Option DescriptorProto :=
  findNestedInList fullName msg.nestedType pfx

/-- `findMessageInFile`: search a file's top-level messages under the
package prefix. -/
def findMessageInFile (file : FileDescriptorProto)
    (fullName pkgPrefix : String) : Option DescriptorProto :=
  findNestedInList fullName file.messageType pkgPrefix

/-- `DescriptorLoader.FindMessageDescriptor`: walk files in order, search
each file, first match wins. -/
def FindMessageDescriptor (fset : FileDescriptorSet) (fullName : String) :
    Option DescriptorProto :=
  fset.file.findSome? (fun file => findMessageInFile file fullName file.package)

/-- All composed dotted names of the messages in a list, under a prefix:
`pfx.Name` for each message, recursively for its nested types.  This is
the spec-level description of the names `FindMessageDescriptor` composes
("message lookup recurses into nested types, composing dotted names by
concatenation"). -/
def specMessageNamesList :
    String → List DescriptorProto → List String
  | _, [] => []
  | pfx, ⟨n, nested⟩ :: rest =>
    (pfx ++ "." ++ n) :: (specMessageNamesList (pfx ++ "." ++ n) nested
      ++ specMessageNamesList pfx rest)

/-- All composed message names of a file (under its package prefix). -/
def specFileMessageNames (file : FileDescriptorProto) : List String :=
  specMessageNamesList file.package file.messageType

/-- A descriptor set with a nested message, whose method input type is
written in the composed `package.Outer.Inner` form (no leading dot). -/
def fileGood : FileDescriptorProto :=
  ⟨"t.proto", "pkg", [⟨"Outer", [⟨"Inner", []⟩]⟩],
    [⟨"Svc", [⟨"M", "pkg.Outer.Inner", "pkg.Outer"⟩]⟩]⟩

/-- Singleton set around `fileGood`. -/
def fsetGood : FileDescriptorSet := ⟨[fileGood]⟩

/-- A descriptor set whose method input type uses protoc's leading-dot
fully-qualified form `.pkg.Msg`. -/
def fileDot : FileDescriptorProto :=
  ⟨"t.proto", "pkg", [⟨"Msg", []⟩], [⟨"Svc", [⟨"M", ".pkg.Msg", ".pkg.Msg"⟩]⟩]⟩

/-- Singleton set around `fileDot`. -/
def fsetDot : FileDescriptorSet := ⟨[fileDot]⟩

/-! ## Connection pool (`ConnectionPool`)

`GetConnection` first looks the target up; an existing connection is
reused unless its state is `Shutdown` or `TransientFailure`, in which
case it is closed and removed before a fresh dial.  The read-locked
check and the locked double-check collapse to one check in this
single-threaded model.  Dialing is an oracle.
-/

/-- `connectivity.State` of a gRPC client connection. -/
inductive ConnState where
  | ready
  | idle
  | connecting
  | transientFailure
  | shutdown
  deriving Repr, DecidableEq

/-- A pooled gRPC client connection; `id` is its identity. -/
structure Conn where
  id : Nat
  state : ConnState
  deriving Repr, DecidableEq

/-- The reuse check: `state != Shutdown && state != TransientFailure`. -/
def connUsable (c : Conn) : Bool :=
  c.state ≠ ConnState.shutdown && c.state ≠ ConnState.transientFailure

/-- `ConnectionPool.GetConnection`: reuse a usable pooled connection;
close and remove a stale one; dial on a miss; a failed dial is returned
to the caller and nothing is inserted. -/
def getConnection (dial : String → Except String Conn)
    (pool : List (String × Conn)) (target : String) :
    List (String × Conn) × Except String Conn :=
  match pool.lookup target with
  | some conn =>
    if connUsable conn then (pool, .ok conn)
    else
      let pool' := pool.filter (fun p => p.1 ≠ target)
      match dial target with
      | .error e => (pool', .error e)
      | .ok c => ((target, c) :: pool', .ok c)
  | none =>
    match dial target with
    | .error e => (pool, .error e)
    | .ok c => ((target, c) :: pool, .ok c)

/-! ## Dynamic message cache (`HTTPProxy.createDynamicMessage`)

Messages are modelled with an identity (`msgId`, an allocation counter in
the state); `proto.Clone` allocates a fresh identity with the same type.
-/

/-- A protobuf message instance: an allocation identity plus its type. -/
structure Msg where
  msgId : Nat
  typeName : String
  deriving Repr, DecidableEq

/-- The proxy's message cache and an allocation counter for identities. -/
structure MsgCacheState where
  cache : List (String × Msg)
  nextId : Nat
  deriving Repr, DecidableEq

/-- `proto.Clone`: a fresh instance (new identity) of the same type. -/
def protoClone (m : Msg) (freshId : Nat) : Msg := ⟨freshId, m.typeName⟩

/-- `findFullMessageDescriptor`: walk the files and their top-level
messages (no nested recursion here), comparing the protoreflect full name
`package.Name` (just `Name` when the package is empty). -/
def findFullMessageDescriptor (fset : FileDescriptorSet) (fullName : String) :
    Option DescriptorProto :=
  fset.file.findSome? (fun file =>
    file.messageType.find? (fun m =>
      (if file.package == "" then m.name
        else file.package ++ "." ++ m.name) == fullName))

/-- `createDynamicMessage`: on a cache hit return `proto.Clone` of the
cached message (a fresh identity); on a miss resolve the descriptor,
create a new message, store it in the cache, and return that same
instance. -/
def createDynamicMessage (fset : FileDescriptorSet) (st : MsgCacheState)
    (messageType : String) : MsgCacheState × Except String Msg :=
  match st.cache.lookup messageType with
  | some cached => (⟨st.cache, st.nextId + 1⟩, .ok (protoClone cached st.nextId))
  | none =>
    match findFullMessageDescriptor fset messageType with
    | none => (st, .error ("message descriptor not found: " ++ messageType))
    | some _ =>
      (⟨(messageType, ⟨st.nextId, messageType⟩) :: st.cache, st.nextId + 1⟩,
        .ok ⟨st.nextId, messageType⟩)

/-! ## HTTP-to-gRPC transcoder (`ProxyHTTPRequest` / `invokeUnary`)

External effects are oracles: JSON unmarshalling into a message, service
discovery, dialing (through the pool model), the unary invocation, and
JSON marshalling of the response.
-/

/-- gRPC status codes used by the gateway. -/
inductive GrpcCode where
  | invalidArgument
  | notFound
  | internal
  | unavailable
  | unknown
  deriving Repr, DecidableEq

/-- A gRPC status error: code plus message. -/
structure GrpcStatus where
  code : GrpcCode
  message : String
  deriving Repr, DecidableEq

/-- An error returned from an RPC layer: a gRPC status or a plain Go
error. -/
inductive RpcError where
  | status (st : GrpcStatus)
  | other (msg : String)
  deriving Repr, DecidableEq

/-- Outcome of `ProxyHTTPRequest`: a JSON response, an error returned to
the caller, or a runtime panic. -/
inductive ProxyOutcome where
  | ok (response : List Nat)
  | fail (e : RpcError)
  | panicked (msg : String)
  deriving Repr, DecidableEq

/-- The external effects of the HTTP proxy. -/
structure ProxyEnv where
  jsonUnmarshal : List Nat → Msg → Except String Msg
  discover : String → Except String (List ServiceInstance)
  dial : String → Except String Conn
  invoke : Conn → String → Msg → Except RpcError Msg
  marshalJSON : Msg → Except String (List Nat)

/-- The state threaded through `ProxyHTTPRequest`, plus the number of
backend invocations performed (the code never retries). -/
structure ProxyResult where
  msgState : MsgCacheState
  pool : List (String × Conn)
  invokeCalls : Nat
  outcome : ProxyOutcome
  deriving Repr, DecidableEq

/-- `jsonToProtobuf`: create the dynamic message, then unmarshal the
JSON body into it. -/
def jsonToProtobuf (env : ProxyEnv) (fset : FileDescriptorSet)
    (st : MsgCacheState) (jsonData : List Nat) (messageType : String) :
    MsgCacheState × Except String Msg :=
  match createDynamicMessage fset st messageType with
  | (st', .error e) => (st', .error e)
  | (st', .ok msg) =>
    match env.jsonUnmarshal jsonData msg with
    | .error e => (st', .error ("failed to unmarshal JSON: " ++ e))
    | .ok m => (st', .ok m)

/-- `invokeUnary`: create the response message, invoke the backend once,
and marshal the response; an invocation error is returned to the caller
as-is. -/
def invokeUnary (env : ProxyEnv) (fset : FileDescriptorSet)
    (st : MsgCacheState) (pool : List (String × Conn)) (conn : Conn)
    (fullMethod : String) (requestMsg : Msg)
    (methodDesc : MethodDescriptorProto) : ProxyResult :=
  if methodDesc.outputType = "" then
    ⟨st, pool, 0, .fail (.status ⟨.internal, "method output type not specified"⟩)⟩
  else
    match createDynamicMessage fset st methodDesc.outputType with
    | (st', .error e) =>
      ⟨st', pool, 0,
        .fail (.status ⟨.internal, "failed to create response message: " ++ e⟩)⟩
    | (st', .ok _) =>
      match env.invoke conn fullMethod requestMsg with
      | .error e => ⟨st', pool, 1, .fail e⟩
      | .ok resp =>
        match env.marshalJSON resp with
        | .error e => ⟨st', pool, 1, .fail (.other e)⟩
        | .ok bytes => ⟨st', pool, 1, .ok bytes⟩

/-- `HTTPProxy.ProxyHTTPRequest`: resolve the method, build the request
message from JSON, discover instances, balance, connect through the
pool, and invoke the unary RPC. -/
def ProxyHTTPRequest (env : ProxyEnv) (fset : FileDescriptorSet)
    (st : MsgCacheState) (pool : List (String × Conn)) (lb : RRState)
    (serviceName methodName : String) (jsonBody : List Nat) : ProxyResult :=
  match FindMethodDescriptor fset serviceName methodName with
  | none =>
    ⟨st, pool, 0, .fail (.status ⟨.notFound,
      "method not found: " ++ serviceName ++ "/" ++ methodName⟩)⟩
  | some methodDesc =>
    if methodDesc.inputType = "" then
      ⟨st, pool, 0, .fail (.status ⟨.internal, "method input type not specified"⟩)⟩
    else
      match jsonToProtobuf env fset st jsonBody methodDesc.inputType with
      | (st', .error e) =>
        ⟨st', pool, 0, .fail (.status ⟨.invalidArgument,
          "failed to unmarshal request: " ++ e⟩)⟩
      | (st', .ok requestMsg) =>
        match env.discover serviceName with
        | .error e =>
          ⟨st', pool, 0, .fail (.status ⟨.unavailable,
            "failed to discover service " ++ serviceName ++ ": " ++ e⟩)⟩
        | .ok instances =>
          if instances.isEmpty then
            ⟨st', pool, 0, .fail (.status ⟨.unavailable,
              "no available instances for service: " ++ serviceName⟩)⟩
          else
            match (rrSelect lb instances).2 with
            | .nil =>
              ⟨st', pool, 0, .fail (.status ⟨.unavailable,
                "failed to select instance for service: " ++ serviceName⟩)⟩
            | .oob => ⟨st', pool, 0, .panicked "index out of range"⟩
            | .inst inst =>
              let target := inst.address ++ ":" ++ toString inst.port
              match getConnection env.dial pool target with
              | (pool', .error e) =>
                ⟨st', pool', 0, .fail (.status ⟨.unavailable,
                  "failed to connect to backend " ++ target ++ ": " ++ e⟩)⟩
              | (pool', .ok conn) =>
                invokeUnary env fset st' pool' conn
                  ("/" ++ serviceName ++ "/" ++ methodName) requestMsg methodDesc

/-! ## HTTP handler (`Server.handleRequest`)

The handler returns `200` on success, `400` for body-read and path-parse
failures, `405` for non-POST, and `500` when the proxy is unconfigured or
`ProxyHTTPRequest` returns any error.  `none` models a runtime panic
inside the proxy.
-/

/-- `handleRequest`: the HTTP status code written for a request. -/
def handleRequest (env : ProxyEnv) (fset : FileDescriptorSet)
    (st : MsgCacheState) (pool : List (String × Conn)) (lb : RRState)
    (hasProxy : Bool) (method : String) (path : String)
    (readBody : Except String (List Nat)) : Option Nat :=
  if path = "/health" then some 200
  else if !hasProxy then some 500
  else if method ≠ "POST" then some 405
  else
    match readBody with
    | .error _ => some 400
    | .ok body =>
      match ParseHTTPRequest path body with
      | .error _ => some 400
      | .ok req =>
        match (ProxyHTTPRequest env fset st pool lb
            req.serviceName req.methodName body).outcome with
        | .ok _ => some 200
        | .fail _ => some 500
        | .panicked _ => none

/-! ## gRPC stream forwarder (`GRPCProxy.ProxyStream` and
`handleUnknownService`) -/

/-- `strings.TrimPrefix(s, "/")`: remove one leading slash if present. -/
def goTrimOneSlash (s : String) : String :=
  match s.toList with
  | '/' :: rest => String.mk rest
  | _ => s

/-- `ParseServiceAndMethod` (from the full method `/package.Service/Method`):
trim one leading slash; if no further slash exists return `("", rest)`,
otherwise split at the first slash into service name and method name. -/
def ParseServiceAndMethod (fullMethod : String) : String × String :=
  let fm := goTrimOneSlash fullMethod
  let cs := fm.toList
  let pre := cs.takeWhile (· ≠ '/')
  let post := cs.dropWhile (· ≠ '/')
  match post with
  | [] => ("", fm)
  | _ :: rest => (String.mk pre, String.mk rest)

/-- Outcome of the stream forwarder: a status error, a runtime panic, or
reaching stream creation (recording the `StreamDesc.StreamName` used). -/
inductive StreamOutcome where
  | err (st : GrpcStatus)
  | panicked (msg : String)
  | forwarded (streamName : String)
  deriving Repr, DecidableEq

/-- `GRPCProxy.ProxyStream`: discover, balance, connect, then split
`fullMethod` on `/` and read element 1 as the stream name; a missing
element 1 is an index-out-of-range panic. -/
def ProxyStream (discover : String → Except String (List ServiceInstance))
    (dial : String → Except String Conn) (lb : RRState)
    (serviceName fullMethod : String) : StreamOutcome :=
  match discover serviceName with
  | .error e => .err ⟨.unavailable,
      "failed to discover service " ++ serviceName ++ ": " ++ e⟩
  | .ok instances =>
    if instances.isEmpty then
      .err ⟨.unavailable, "no available instances for service: " ++ serviceName⟩
    else
      match (rrSelect lb instances).2 with
      | .nil => .err ⟨.unavailable,
          "failed to select instance for service: " ++ serviceName⟩
      | .oob => .panicked "index out of range"
      | .inst inst =>
        match dial (inst.address ++ ":" ++ toString inst.port) with
        | .error e => .err ⟨.unavailable, "failed to connect to backend: " ++ e⟩
        | .ok _ =>
          match (goSplitSlash fullMethod).get? 1 with
          | none => .panicked "index out of range"
          | some sn => .forwarded sn

/-- `handleUnknownService`: parse the inbound full method into service
and method names and forward, passing the parsed method name as
`ProxyStream`'s `fullMethod` argument (as the source does). -/
def handleUnknownService (discover : String → Except String (List ServiceInstance))
    (dial : String → Except String Conn) (lb : RRState)
    (inboundFullMethod : String) : StreamOutcome :=
  let p := ParseServiceAndMethod inboundFullMethod
  ProxyStream discover dial lb p.1 p.2

/-- A discovery oracle returning one healthy instance. -/
def discoverOne : String → Except String (List ServiceInstance) :=
  fun _ => .ok [instA]

/-- A dial oracle that always succeeds. -/
def dialOk : String → Except String Conn := fun _ => .ok ⟨1, .ready⟩

/-- A dial oracle that always fails. -/
def dialFail : String → Except String Conn := fun _ => .error "connection refused"

/-- A stale pooled connection (transient failure). -/
def connBad : Conn := ⟨7, .transientFailure⟩

/-- An echo descriptor set: service `echo.Echo`, method `Say`, top-level
messages `EchoRequest` and `EchoReply` (composed names, no leading dot). -/
def fileEcho : FileDescriptorProto :=
  ⟨"echo.proto", "echo", [⟨"EchoRequest", []⟩, ⟨"EchoReply", []⟩],
    [⟨"Echo", [⟨"Say", "echo.EchoRequest", "echo.EchoReply"⟩]⟩]⟩

/-- Singleton set around `fileEcho`. -/
def fsetEcho : FileDescriptorSet := ⟨[fileEcho]⟩

/-- An oracle environment whose JSON unmarshalling always fails and whose
backend invocation returns a fixed status error (used in witnesses and
counterexamples). -/
def envBadJSON : ProxyEnv :=
  ⟨fun _ _ => .error "syntax error", fun _ => .ok [instA], dialOk,
    fun _ _ _ => .ok ⟨99, "echo.EchoReply"⟩, fun _ => .ok [123]⟩

/-- An oracle environment whose backend invocation fails with a status
error, everything earlier succeeding. -/
def envBackendErr : ProxyEnv :=
  ⟨fun _ m => .ok m, fun _ => .ok [instA], dialOk,
    fun _ _ _ => .error (.status ⟨.unknown, "backend exploded"⟩),
    fun _ => .ok [123]⟩

/-! ## Theorems -/

/-- `goScanInt` never returns a value above the largest `int64`. -/
theorem goScanInt_le {s : String} {w : Int} (h : goScanInt s = some w) :
    w ≤ 2 ^ 63 - 1 := by
  unfold goScanInt at h
  dsimp only at h
  repeat' split at h
  all_goals (try injection h with h)
  all_goals (try cases h)
  all_goals omega

/-- `getWeight` always returns at least 1. -/
theorem getWeight_pos (inst : ServiceInstance) : 1 ≤ getWeight inst := by
  unfold getWeight
  repeat' split
  all_goals omega

/-- `getWeight` never exceeds the largest `int64`. -/
theorem getWeight_le (inst : ServiceInstance) : getWeight inst ≤ 2 ^ 63 - 1 := by
  unfold getWeight
  repeat' split
  all_goals try omega
  case _ h _ => exact goScanInt_le h

/-- `getWeight` is the cast of `weightNat`. -/
theorem getWeight_eq_weightNat (inst : ServiceInstance) :
    getWeight inst = (weightNat inst : Int) := by
  have h := getWeight_pos inst
  unfold weightNat
  omega

/-- `weightNat` is at least 1. -/
theorem weightNat_pos (inst : ServiceInstance) : 1 ≤ weightNat inst := by
  have h := getWeight_pos inst
  unfold weightNat
  omega

/-- `weightNat` is below `2^63`. -/
theorem weightNat_lt (inst : ServiceInstance) : weightNat inst < 2 ^ 63 := by
  have h := getWeight_le inst
  unfold weightNat
  omega

/-- While the true total weight stays below `2^63`, the Go `int` fold
computing `totalWeight` does not wrap and equals the true sum. -/
theorem totalWeightOf_eq_aux :
    ∀ (l : List ServiceInstance) (a : Nat), a + sumWeights l < 2 ^ 63 →
    List.foldl (fun acc i => goAddInt acc (getWeight i)) (a : Int) l
      = ((a + sumWeights l : Nat) : Int) := by
  intro l
  induction l with
  | nil => intro a _; simp [sumWeights]
  | cons x xs ih =>
    intro a hb
    have hw1 := weightNat_pos x
    have hw2 := weightNat_lt x
    have hsum : sumWeights (x :: xs) = weightNat x + sumWeights xs := by
      simp [sumWeights]
    rw [hsum] at hb
    have hstep : goAddInt (a : Int) (getWeight x) = ((a + weightNat x : Nat) : Int) := by
      rw [getWeight_eq_weightNat, goAddInt_eq (by omega) (by push_cast; omega)]
      push_cast
      ring
    rw [List.foldl_cons, hstep, ih (a + weightNat x) (by omega), hsum]
    congr 1
    omega

/-- `totalWeight` equals the true sum of weights when that sum does not
overflow `int64`. -/
theorem totalWeightOf_eq (l : List ServiceInstance) (hb : sumWeights l < 2 ^ 63) :
    totalWeightOf l = (sumWeights l : Int) := by
  have h := totalWeightOf_eq_aux l 0 (by omega)
  simpa [totalWeightOf] using h

/-- The true total weight is at least the number of instances. -/
theorem length_le_sumWeights (l : List ServiceInstance) :
    l.length ≤ sumWeights l := by
  induction l with
  | nil => simp [sumWeights]
  | cons x xs ih =>
    have := weightNat_pos x
    simp only [sumWeights, List.map_cons, List.sum_cons, List.length_cons]
    simp only [sumWeights] at ih
    omega

/-- Shifting the weighted walk: starting the accumulator at `cw ≥ 0`
instead of `0` is the same as lowering the offset by `cw`, as long as the
accumulated weights stay below `2^63` (no `int` wraparound). -/
theorem walkSelect_shift :
    ∀ (xs : List ServiceInstance) (o cw : Int), 0 ≤ cw →
    cw + (sumWeights xs : Int) < 2 ^ 63 →
    walkSelect xs o cw = walkSelect xs (o - cw) 0 := by
  intro xs
  induction xs with
  | nil => intro o cw _ _; rfl
  | cons y ys ih =>
    intro o cw hcw hb
    have hw1 := weightNat_pos y
    have hw2 := weightNat_lt y
    have hsum : (sumWeights (y :: ys) : Int)
        = (weightNat y : Int) + (sumWeights ys : Int) := by
      simp [sumWeights]
    rw [hsum] at hb
    have hys : (0 : Int) ≤ (sumWeights ys : Int) := Int.natCast_nonneg _
    unfold walkSelect
    rw [getWeight_eq_weightNat]
    have h1 : goAddInt cw (weightNat y : Int) = cw + (weightNat y : Int) := by
      apply goAddInt_eq <;> push_cast <;> omega
    have h2 : goAddInt 0 (weightNat y : Int) = (weightNat y : Int) := by
      rw [goAddInt_eq] <;> push_cast <;> omega
    rw [h1, h2]
    have hcond : (o < cw + (weightNat y : Int)) ↔ (o - cw < (weightNat y : Int)) := by
      omega
    by_cases hc : o < cw + (weightNat y : Int)
    · rw [if_pos hc, if_pos (hcond.mp hc)]
    · rw [if_neg hc, if_neg (fun hx => hc (hcond.mpr hx))]
      rw [ih o (cw + (weightNat y : Int)) (by omega) (by omega)]
      rw [ih (o - cw) (weightNat y : Int) (by omega) (by omega)]
      have harg : o - (cw + (weightNat y : Int)) = o - cw - (weightNat y : Int) := by
        ring
      rw [harg]

/-- The walk finds an instance whenever the offset lies below the total
weight. -/
theorem walkSelect_isSome :
    ∀ (xs : List ServiceInstance) (o : Int), 0 ≤ o →
    o < (sumWeights xs : Int) → (sumWeights xs : Int) < 2 ^ 63 →
    (walkSelect xs o 0).isSome := by
  intro xs
  induction xs with
  | nil =>
    intro o h1 h2 _
    simp [sumWeights] at h2
    omega
  | cons y ys ih =>
    intro o h1 h2 hb
    have hw1 := weightNat_pos y
    have hw2 := weightNat_lt y
    have hsum : (sumWeights (y :: ys) : Int)
        = (weightNat y : Int) + (sumWeights ys : Int) := by
      simp [sumWeights]
    rw [hsum] at h2 hb
    unfold walkSelect
    rw [getWeight_eq_weightNat]
    have hadd : goAddInt 0 (weightNat y : Int) = (weightNat y : Int) := by
      rw [goAddInt_eq] <;> push_cast <;> omega
    rw [hadd]
    by_cases hc : o < (weightNat y : Int)
    · rw [if_pos hc]
      rfl
    · rw [if_neg hc]
      rw [walkSelect_shift ys o (weightNat y : Int) (by omega) (by omega)]
      exact ih (o - (weightNat y : Int)) (by omega) (by omega) (by omega)

/-- The sequence of instances picked by the weighted walk as the offset
ranges over `[0, totalWeight)` is: the first instance repeated `w_1`
times, then the second repeated `w_2` times, and so on. -/
theorem wPick_seq :
    ∀ (l : List ServiceInstance), (sumWeights l : Int) < 2 ^ 63 →
    (List.range (sumWeights l)).map (wPick l)
      = l.flatMap (fun x => List.replicate (weightNat x) x) := by
  intro l
  induction l with
  | nil => simp [sumWeights]
  | cons x xs ih =>
    intro hb
    have hw1 := weightNat_pos x
    have hw2 := weightNat_lt x
    have hsum : sumWeights (x :: xs) = weightNat x + sumWeights xs := by
      simp [sumWeights]
    have hbs : (sumWeights xs : Int) < 2 ^ 63 := by
      rw [hsum] at hb
      push_cast at hb ⊢
      omega
    rw [hsum, List.range_add, List.map_append, List.map_map, List.flatMap_cons]
    congr 1
    · -- offsets below the first weight pick the head
      have hrep : ∀ o ∈ List.range (weightNat x),
          wPick (x :: xs) o = x := by
        intro o ho
        have ho' : o < weightNat x := List.mem_range.mp ho
        unfold wPick walkSelect
        rw [getWeight_eq_weightNat]
        have hadd : goAddInt 0 (weightNat x : Int) = (weightNat x : Int) := by
          rw [goAddInt_eq] <;> push_cast <;> omega
        rw [hadd, if_pos (by exact_mod_cast ho')]
        rfl
      rw [List.map_congr_left hrep]
      simp [List.eq_replicate_iff]
    · -- offsets at or above the first weight defer to the tail
      rw [← ih hbs]
      apply List.map_congr_left
      intro t ht
      have ht' : t < sumWeights xs := List.mem_range.mp ht
      simp only [Function.comp_apply]
      unfold wPick
      have hadd : goAddInt 0 (weightNat x : Int) = (weightNat x : Int) := by
        rw [goAddInt_eq] <;> push_cast <;> omega
      have hc : ¬ ((weightNat x + t : Nat) : Int) < (weightNat x : Int) := by
        push_cast
        omega
      have hstep : walkSelect (x :: xs) ((weightNat x + t : Nat) : Int) 0
          = if ((weightNat x + t : Nat) : Int) < goAddInt 0 (getWeight x) then some x
            else walkSelect xs ((weightNat x + t : Nat) : Int) (goAddInt 0 (getWeight x)) := rfl
      rw [hstep, getWeight_eq_weightNat, hadd, if_neg hc]
      rw [walkSelect_shift xs ((weightNat x + t : Nat) : Int) (weightNat x : Int)
        (by omega) (by rw [hsum] at hb; push_cast at hb ⊢; omega)]
      have harg : ((weightNat x + t : Nat) : Int) - (weightNat x : Int) = (t : Int) := by
        push_cast
        ring
      rw [harg]
      have hs := walkSelect_isSome xs (t : Int) (by omega) (by exact_mod_cast ht') hbs
      obtain ⟨p, hp⟩ := Option.isSome_iff_exists.mp hs
      rw [hp]
      rfl

/-- In the weighted pick sequence, an instance occurring once in a
duplicate-free list is picked exactly its weight many times. -/
theorem count_flatMap_replicate :
    ∀ (l : List ServiceInstance), l.Nodup → ∀ y ∈ l,
    (l.flatMap (fun x => List.replicate (weightNat x) x)).count y = weightNat y := by
  intro l
  induction l with
  | nil => intro _ y hy; cases hy
  | cons x xs ih =>
    intro hnd y hy
    have hx : x ∉ xs := (List.nodup_cons.mp hnd).1
    have hnd' : xs.Nodup := (List.nodup_cons.mp hnd).2
    rw [List.flatMap_cons, List.count_append]
    rcases List.mem_cons.mp hy with hyx | hyxs
    · subst hyx
      have h1 : (List.replicate (weightNat y) y).count y = weightNat y := by
        simp [List.count_replicate]
      have h2 : (xs.flatMap (fun x => List.replicate (weightNat x) x)).count y = 0 := by
        rw [List.count_eq_zero]
        intro hmem
        obtain ⟨b, hb, hyb⟩ := List.mem_flatMap.mp hmem
        obtain rfl := List.eq_of_mem_replicate hyb
        exact hx hb
      omega
    · have hyx : y ≠ x := fun h => hx (h ▸ hyxs)
      have h1 : (List.replicate (weightNat x) x).count y = 0 := by
        rw [List.count_eq_zero]
        intro hmem
        exact hyx (List.eq_of_mem_replicate hmem)
      rw [h1, ih hnd' y hyxs]
      omega

/-- Counting residues: among `0, 1, …, m-1` exactly
`m / W + (1 if r < m % W)` numbers are congruent to `r` mod `W`. -/
theorem count_map_mod_range {W : Nat} (hW : 0 < W) (r : Nat) (hr : r < W) :
    ∀ m, ((List.range m).map (· % W)).count r
      = m / W + (if r < m % W then 1 else 0) := by
  intro m
  induction m with
  | zero => simp
  | succ m ih =>
    rw [List.range_succ, List.map_append, List.count_append, ih]
    have hcount : List.count r (List.map (· % W) [m]) = if m % W = r then 1 else 0 := by
      simp [List.count_cons]
    rw [hcount]
    have hdm := Nat.div_add_mod m W
    have hsm : m % W < W := Nat.mod_lt _ hW
    rcases Nat.lt_or_ge (m % W + 1) W with hc | hc
    · have h1 : m + 1 = W * (m / W) + (m % W + 1) := by omega
      have h2 : (m + 1) % W = m % W + 1 := by
        rw [h1, Nat.mul_add_mod, Nat.mod_eq_of_lt hc]
      have h3 : (m + 1) / W = m / W := by
        rw [h1, Nat.mul_add_div hW, Nat.div_eq_of_lt hc, Nat.add_zero]
      rw [h2, h3]
      split_ifs <;> omega
    · have hceq : m % W + 1 = W := by omega
      have h1 : m + 1 = W * (m / W) + W := by omega
      have h2 : (m + 1) % W = 0 := by
        rw [h1, Nat.mul_add_mod, Nat.mod_self]
      have h3 : (m + 1) / W = m / W + 1 := by
        rw [h1, Nat.mul_add_div hW, Nat.div_self hW]
      rw [h2, h3]
      split_ifs <;> omega

/-- One round-robin selection, while the counter stays below `2^63`:
the counter becomes `c+1` and the instance at index `(c+1) % n` is
returned. -/
theorem rrSelect_no_overflow (c : Nat) (l : List ServiceInstance)
    (hne : l ≠ []) (hb : c + 1 < 2 ^ 63) :
    rrSelect ⟨c⟩ l = (⟨c + 1⟩, .inst (l.getD ((c + 1) % l.length) default)) := by
  have hlen : 0 < l.length := List.length_pos.mpr hne
  have hemp : l.isEmpty = false := by simp [List.isEmpty_iff, hne]
  have hc1 : (c + 1) % 2 ^ 64 = c + 1 := Nat.mod_eq_of_lt (by omega)
  unfold rrSelect
  rw [hemp]
  simp only [Bool.false_eq_true, if_false]
  rw [hc1, goIntOfUint64_of_lt (by omega)]
  have hmod : goMod ((c + 1 : Nat) : Int) ((l.length : Nat) : Int)
      = (((c + 1) % l.length : Nat) : Int) := rfl
  rw [hmod]
  rw [if_pos ⟨Int.natCast_nonneg _, by exact_mod_cast Nat.mod_lt _ hlen⟩]
  rw [Int.toNat_natCast]

/-- While the counter stays below `2^63`, a round-robin run from counter
`c` selects exactly the instances at indices `(c+j+1) % n`. -/
theorem rrRun_eq_of_no_overflow :
    ∀ (k c : Nat) (l : List ServiceInstance), l ≠ [] → c + k < 2 ^ 63 →
    rrRun k ⟨c⟩ l
      = some ((List.range k).map (fun j => l.getD ((c + j + 1) % l.length) default)) := by
  intro k
  induction k with
  | zero => intro c l _ _; simp [rrRun]
  | succ k ih =>
    intro c l hne hb
    have hlen : 0 < l.length := List.length_pos.mpr hne
    have hemp : l.isEmpty = false := by simp [List.isEmpty_iff, hne]
    have hsel := rrSelect_no_overflow c l hne (by omega)
    rw [rrRun, hsel]
    dsimp only
    rw [ih (c + 1) l hne (by omega)]
    rw [List.range_succ_eq_map]
    simp only [Option.map_some, List.map_cons, List.map_map]
    refine congrArg some (congrArg₂ List.cons (by norm_num) ?_)
    apply List.map_congr_left
    intro j _
    simp only [Function.comp_apply]
    have harith : c + 1 + j + 1 = c + (j + 1) + 1 := by omega
    rw [harith]

/-- If a round-robin run of `k` selections completes, then at every step
`j < k` the computed Go index was non-negative. -/
theorem rrRun_isSome_valid :
    ∀ (k c : Nat) (l : List ServiceInstance), (rrRun k ⟨c⟩ l).isSome →
    ∀ j < k, 0 ≤ goMod (goIntOfUint64 ((c + j + 1) % 2 ^ 64)) (l.length : Int) := by
  intro k
  induction k with
  | zero => intro c l _ j hj; omega
  | succ k ih =>
    intro c l h j hj
    rw [rrRun] at h
    by_cases hemp : l.isEmpty
    · rw [rrSelect, if_pos hemp] at h
      dsimp only at h
      simp at h
    · rw [rrSelect, if_neg hemp] at h
      dsimp only at h
      by_cases hcond : 0 ≤ goMod (goIntOfUint64 ((c + 1) % 2 ^ 64)) (l.length : Int) ∧
          goMod (goIntOfUint64 ((c + 1) % 2 ^ 64)) (l.length : Int) < (l.length : Int)
      · rw [if_pos hcond] at h
        simp only [Option.isSome_map'] at h
        match j with
        | 0 => exact hcond.1
        | j + 1 =>
          have hrec := ih ((c + 1) % 2 ^ 64) l h j (by omega)
          have heq : ((c + 1) % 2 ^ 64 + j + 1) % 2 ^ 64 = (c + (j + 1) + 1) % 2 ^ 64 := by
            omega
          rwa [heq] at hrec
      · rw [if_neg hcond] at h
        simp at h

/-- Splitting a residue count at `c`: the count over `[0, c+k)` is the
count over `[0, c)` plus the count over the window `[c, c+k)`. -/
theorem count_window_mod (W : Nat) (r : Nat) (c k : Nat) :
    ((List.range (c + k)).map (· % W)).count r
      = ((List.range c).map (· % W)).count r
        + ((List.range k).map (fun t => (c + t) % W)).count r := by
  rw [List.range_add, List.map_append, List.count_append, List.map_map]
  rfl

/-- When `n` does not divide `k`, the ceiling `(k + n - 1) / n` is one
more than the floor. -/
theorem add_pred_div_of_mod_pos {n k : Nat} (hn : 0 < n) (hs : 1 ≤ k % n) :
    (k + n - 1) / n = k / n + 1 := by
  have hdm := Nat.div_add_mod k n
  have hsm : k % n < n := Nat.mod_lt _ hn
  have hms : n * (k / n + 1) = n * (k / n) + n := by ring
  have h1 : k + n - 1 = n * (k / n + 1) + (k % n - 1) := by
    rw [hms]
    omega
  have h2 : (k + n - 1) / n = (k / n + 1) + (k % n - 1) / n := by
    rw [h1, Nat.mul_add_div hn]
  rw [h2, Nat.div_eq_of_lt (show k % n - 1 < n by omega)]

/-- A full window of `W` consecutive residues contains every residue
`r < W` exactly once. -/
theorem count_full_window (W : Nat) (hW : 0 < W) (r : Nat) (hr : r < W) (c : Nat) :
    ((List.range W).map (fun t => (c + t) % W)).count r = 1 := by
  have h := count_window_mod W r c W
  have hA := count_map_mod_range hW r hr c
  have hB := count_map_mod_range hW r hr (c + W)
  rw [Nat.add_div_right _ hW, Nat.add_mod_right] at hB
  omega

/-- One weighted selection, while the counter and the total weight stay
below `2^63`: the counter becomes `c+1` and the walk picks the instance
at offset `(c+1) % totalWeight`. -/
theorem wSelect_no_overflow (c : Nat) (l : List ServiceInstance) (hne : l ≠ [])
    (hb1 : c + 1 < 2 ^ 63) (hb2 : sumWeights l < 2 ^ 63) :
    wSelect ⟨c⟩ l = (⟨c + 1⟩, .inst (wPick l ((c + 1) % sumWeights l))) := by
  have hlen : 0 < l.length := List.length_pos.mpr hne
  have hS : 1 ≤ sumWeights l := le_trans hlen (length_le_sumWeights l)
  have hemp : l.isEmpty = false := by simp [List.isEmpty_iff, hne]
  have hc1 : (c + 1) % 2 ^ 64 = c + 1 := Nat.mod_eq_of_lt (by omega)
  unfold wSelect
  rw [hemp]
  simp only [Bool.false_eq_true, if_false]
  rw [totalWeightOf_eq l hb2]
  rw [if_neg (show ¬ ((sumWeights l : Nat) : Int) = 0 by omega)]
  rw [hc1, goIntOfUint64_of_lt (by omega)]
  have hmod : goMod ((c + 1 : Nat) : Int) ((sumWeights l : Nat) : Int)
      = (((c + 1) % sumWeights l : Nat) : Int) := rfl
  rw [hmod]
  rfl

/-- While the counter and total weight stay below `2^63`, a weighted run
from counter `c` picks exactly the instances at offsets
`(c+t+1) % totalWeight`. -/
theorem wRun_eq_of_no_overflow :
    ∀ (k c : Nat) (l : List ServiceInstance), l ≠ [] → c + k < 2 ^ 63 →
    sumWeights l < 2 ^ 63 →
    wRun k ⟨c⟩ l
      = some ((List.range k).map (fun t => wPick l ((c + t + 1) % sumWeights l))) := by
  intro k
  induction k with
  | zero => intro c l _ _ _; simp [wRun]
  | succ k ih =>
    intro c l hne hb hb2
    have hsel := wSelect_no_overflow c l hne (by omega) hb2
    rw [wRun, hsel]
    dsimp only
    rw [ih (c + 1) l hne (by omega) hb2]
    rw [List.range_succ_eq_map]
    simp only [Option.map_some, List.map_cons, List.map_map]
    refine congrArg some (congrArg₂ List.cons (by norm_num) ?_)
    apply List.map_congr_left
    intro t _
    simp only [Function.comp_apply]
    have harith : c + 1 + t + 1 = c + (t + 1) + 1 := by omega
    rw [harith]

/-- C7 (amended): the weighted balancer reads `metadata["weight"]` as a
positive integer defaulting to 1; each `Select` advances the counter,
takes `offset = counter mod totalWeight`, and returns the first instance
whose cumulative weight strictly exceeds the offset.  For a fixed
duplicate-free non-empty list, any window of `totalWeight` consecutive
selections whose counter values stay below `2^63` (no `uint64`-to-`int`
overflow) picks each instance exactly its weight many times. -/
theorem weighted_period_counts (l : List ServiceInstance) (c : Nat)
    (hne : l ≠ []) (hnd : l.Nodup) (hb : c + sumWeights l < 2 ^ 63) :
    wRun (sumWeights l) ⟨c⟩ l
      = some ((List.range (sumWeights l)).map
          (fun t => wPick l ((c + t + 1) % sumWeights l))) ∧
    (∀ y ∈ l, ((List.range (sumWeights l)).map
        (fun t => wPick l ((c + t + 1) % sumWeights l))).count y = weightNat y) := by
  have hlen : 0 < l.length := List.length_pos.mpr hne
  have hS : 1 ≤ sumWeights l := le_trans hlen (length_le_sumWeights l)
  have hb2 : sumWeights l < 2 ^ 63 := by omega
  constructor
  · exact wRun_eq_of_no_overflow (sumWeights l) c l hne (by omega) hb2
  · intro y hy
    have hcomp : (List.range (sumWeights l)).map
          (fun t => wPick l ((c + t + 1) % sumWeights l))
        = ((List.range (sumWeights l)).map
            (fun t => (c + 1 + t) % sumWeights l)).map (wPick l) := by
      rw [List.map_map]
      apply List.map_congr_left
      intro t _
      simp only [Function.comp_apply]
      have h : c + 1 + t = c + t + 1 := by omega
      rw [h]
    rw [hcomp]
    have hperm : ((List.range (sumWeights l)).map
        (fun t => (c + 1 + t) % sumWeights l)).Perm (List.range (sumWeights l)) := by
      apply List.perm_iff_count.mpr
      intro a
      rcases Nat.lt_or_ge a (sumWeights l) with ha | ha
      · rw [count_full_window (sumWeights l) (by omega) a ha (c + 1)]
        rw [List.count_eq_one_of_mem (List.nodup_range _) (List.mem_range.mpr ha)]
      · rw [List.count_eq_zero.mpr, List.count_eq_zero.mpr]
        · intro hm
          exact absurd (List.mem_range.mp hm) (by omega)
        · intro hm
          obtain ⟨t, _, hta⟩ := List.mem_map.mp hm
          have : a < sumWeights l := hta ▸ Nat.mod_lt _ (by omega)
          omega
    rw [(hperm.map (wPick l)).count_eq]
    rw [wPick_seq l (by exact_mod_cast hb2)]
    exact count_flatMap_replicate l hnd y hy

/-- Witness for C7 with weights 3 and 2 over five selections. -/
theorem weighted_period_counts_witness :
    wRun (sumWeights [instW3, instW2]) ⟨0⟩ [instW3, instW2]
      = some ((List.range (sumWeights [instW3, instW2])).map
          (fun t => wPick [instW3, instW2] ((0 + t + 1) % sumWeights [instW3, instW2]))) ∧
    ((List.range (sumWeights [instW3, instW2])).map
        (fun t => wPick [instW3, instW2] ((0 + t + 1) % sumWeights [instW3, instW2]))).count
      instW3 = weightNat instW3 ∧
    ((List.range (sumWeights [instW3, instW2])).map
        (fun t => wPick [instW3, instW2] ((0 + t + 1) % sumWeights [instW3, instW2]))).count
      instW2 = weightNat instW2 := by
  have h := weighted_period_counts [instW3, instW2] 0 (by simp) (by decide) (by decide)
  exact ⟨h.1, h.2 instW3 (by simp), h.2 instW2 (by simp)⟩

/-- C7 counterexample: the exact-count property does not hold for every
window of `totalWeight` consecutive selections.  With two weight-1
instances, the window of two selections reached after `2^63 - 1`
selections from a fresh balancer (counter `2^63 - 1`) picks the first
instance twice and the second zero times: at counter `2^63` the Go
conversion `int(counter)` is `-2^63`, the offset `-2^63 % 2 = 0` picks
instance 0, and at counter `2^63 + 1` the offset `-(2^63-1) % 2 = -1` is
negative, so the walk's first comparison `offset < w_1` again picks
instance 0. -/
theorem weighted_period_counts_counterexample :
    getWeight instA = 1 ∧ getWeight instB = 1 ∧ sumWeights [instA, instB] = 2 ∧
    wRun 2 ⟨2 ^ 63 - 1⟩ [instA, instB] = some [instA, instA] ∧
    [instA, instA].count instB = 0 := by decide

/-- C10 (amended): `getWeight` returns at least 1 for every instance, and
for every non-empty list whose true total weight does not overflow
`int64`, the computed total weight is at least the list length and the
`totalWeight == 0` fallback branch is unreachable. -/
theorem getWeight_pos_total_weight :
    (∀ inst, 1 ≤ getWeight inst) ∧
    (∀ l : List ServiceInstance, l ≠ [] → sumWeights l < 2 ^ 63 →
      (l.length : Int) ≤ totalWeightOf l ∧ totalWeightOf l ≠ 0) := by
  refine ⟨getWeight_pos, fun l hne hb => ?_⟩
  have hlen : 0 < l.length := List.length_pos.mpr hne
  have hle := length_le_sumWeights l
  rw [totalWeightOf_eq l hb]
  constructor
  · exact_mod_cast hle
  · have h1 : 1 ≤ sumWeights l := le_trans hlen hle
    omega

/-- Witness for C10 on a concrete two-instance list. -/
theorem getWeight_pos_total_weight_witness :
    1 ≤ getWeight instA ∧
    (([instA, instB] : List ServiceInstance).length : Int)
      ≤ totalWeightOf [instA, instB] ∧
    totalWeightOf [instA, instB] ≠ 0 :=
  ⟨getWeight_pos_total_weight.1 instA,
    (getWeight_pos_total_weight.2 [instA, instB] (by simp) (by decide)).1,
    (getWeight_pos_total_weight.2 [instA, instB] (by simp) (by decide)).2⟩

/-- C10 counterexample: `totalWeight` is computed with wrapping Go `int`
addition, so the claim fails without an overflow bound.  Three instances
with weights `2^63 - 1`, `2^63 - 1` and `2` sum to exactly `2^64`, which
wraps to `0`: the computed total weight is `0 < 3 = len(instances)` and
the `totalWeight == 0` round-robin fallback branch is taken (the select
returns `instances[int(1) % 3]`, the second instance). -/
theorem weighted_total_zero_counterexample :
    totalWeightOf [instBigW, instBigW2, instTwoW] = 0 ∧
    ([instBigW, instBigW2, instTwoW] : List ServiceInstance).length = 3 ∧
    (wSelect ⟨0⟩ [instBigW, instBigW2, instTwoW]).2
      = .inst ([instBigW, instBigW2, instTwoW].getD (1 % 3) default) := by decide

/-- Each index `i < n` occurs in the round-robin index sequence of `k`
selections either `⌊k/n⌋` or `⌈k/n⌉` times. -/
theorem rrIdxSeq_count (n : Nat) (hn : 0 < n) (i : Nat) (hi : i < n) (k : Nat) :
    (rrIdxSeq k n).count i = k / n ∨ (rrIdxSeq k n).count i = (k + n - 1) / n := by
  have hseq : rrIdxSeq k n = (List.range k).map (fun t => (1 + t) % n) := by
    unfold rrIdxSeq
    apply List.map_congr_left
    intro j _
    have h : j + 1 = 1 + j := by omega
    rw [h]
  have hwin := count_window_mod n i 1 k
  have hB := count_map_mod_range hn i hi (1 + k)
  have hA : ((List.range 1).map (· % n)).count i = if 0 = i then 1 else 0 := by
    have h0 : (List.range 1).map (· % n) = [0] := by
      simp [List.range_succ]
    rw [h0]
    simp [List.count_cons]
  rw [hwin, hA] at hB
  rw [hseq]
  have hone : 1 + k = k + 1 := by omega
  rw [hone] at hB
  have hdm := Nat.div_add_mod k n
  have hsm : k % n < n := Nat.mod_lt _ hn
  rcases Nat.lt_or_ge (k % n + 1) n with hc | hc
  · have hms : n * (k / n) + (k % n + 1) = k + 1 := by omega
    have h2 : (k + 1) % n = k % n + 1 := by
      rw [← hms, Nat.mul_add_mod, Nat.mod_eq_of_lt hc]
    have h3 : (k + 1) / n = k / n := by
      rw [← hms, Nat.mul_add_div hn, Nat.div_eq_of_lt hc, Nat.add_zero]
    rw [h2, h3] at hB
    by_cases hi0 : i = 0
    · subst hi0
      left
      split_ifs at hB <;> omega
    · by_cases hile : i ≤ k % n
      · right
        rw [add_pred_div_of_mod_pos hn (by omega)]
        split_ifs at hB <;> omega
      · left
        split_ifs at hB <;> omega
  · have hceq : k % n + 1 = n := by omega
    have hms : n * (k / n) + n = k + 1 := by omega
    have hmm : n * (k / n) + n = n * (k / n + 1) := by ring
    have h2 : (k + 1) % n = 0 := by
      rw [← hms, hmm, Nat.mul_mod_right]
    have h3 : (k + 1) / n = k / n + 1 := by
      rw [← hms, hmm, Nat.mul_div_cancel_left _ hn]
    rw [h2, h3] at hB
    by_cases hi0 : i = 0
    · subst hi0
      left
      split_ifs at hB <;> omega
    · right
      rw [add_pred_div_of_mod_pos hn (by omega)]
      split_ifs at hB <;> omega

/-- C6 (amended): on a fresh round-robin balancer over `n ≥ 1` instances,
the first `Select` returns the instance at index `1 % n`, and for
`1 ≤ k < 2^63` (no `uint64`-to-`int` overflow), `k` sequential selections
complete and select the instance at index `(j+1) % n` at step `j`, so
each index is selected either `⌊k/n⌋` or `⌈k/n⌉` times. -/
theorem roundRobin_first_and_balanced (l : List ServiceInstance) (k : Nat)
    (hne : l ≠ []) (hk : 1 ≤ k) (hbound : k < 2 ^ 63) :
    (rrSelect ⟨0⟩ l).2 = .inst (l.getD (1 % l.length) default) ∧
    rrRun k ⟨0⟩ l = some (rrSeq k l) ∧
    (∀ i, i < l.length →
      (rrIdxSeq k l.length).count i = k / l.length ∨
      (rrIdxSeq k l.length).count i = (k + l.length - 1) / l.length) := by
  have hlen : 0 < l.length := List.length_pos.mpr hne
  refine ⟨?_, ?_, fun i hi => rrIdxSeq_count l.length hlen i hi k⟩
  · rw [rrSelect_no_overflow 0 l hne (by omega)]
  · rw [rrRun_eq_of_no_overflow k 0 l hne (by omega)]
    unfold rrSeq rrIdxSeq
    rw [List.map_map]
    refine congrArg some (List.map_congr_left fun j _ => ?_)
    simp only [Function.comp_apply, Nat.zero_add]

/-- Witness for C6 at two instances and five selections. -/
theorem roundRobin_first_and_balanced_witness :
    (rrSelect ⟨0⟩ [instA, instB]).2 = .inst ([instA, instB].getD (1 % 2) default) ∧
    rrRun 5 ⟨0⟩ [instA, instB] = some (rrSeq 5 [instA, instB]) ∧
    ((rrIdxSeq 5 2).count 1 = 5 / 2 ∨ (rrIdxSeq 5 2).count 1 = (5 + 2 - 1) / 2) := by
  have h := roundRobin_first_and_balanced [instA, instB] 5 (by simp)
    (by norm_num) (by norm_num)
  exact ⟨h.1, h.2.1, h.2.2 1 (by norm_num)⟩

/-- C6 counterexample: the balanced-selection property does not hold for
every `k ≥ 1`: with three instances and `k = 2^63`, selection number
`2^63` converts the counter to a negative Go `int` (`int(2^63) = -2^63`,
and `-2^63 % 3 = -2`), so the run panics with an index out of range
instead of completing with balanced counts. -/
theorem roundRobin_balanced_counterexample :
    ¬ (∃ out, rrRun (2 ^ 63) ⟨0⟩ [instA, instB, instC] = some out ∧
        ∀ i, i < 3 →
          out.count ([instA, instB, instC].getD i default) = 2 ^ 63 / 3 ∨
          out.count ([instA, instB, instC].getD i default) = (2 ^ 63 + 3 - 1) / 3) := by
  rintro ⟨out, hrun, -⟩
  have hsome : (rrRun (2 ^ 63) ⟨0⟩ [instA, instB, instC]).isSome := by
    rw [hrun]; rfl
  have hval := rrRun_isSome_valid (2 ^ 63) 0 [instA, instB, instC] hsome
    (2 ^ 63 - 1) (by norm_num)
  revert hval
  decide

/-- C5: `ParseHTTPRequest` accepts a path only when, after trimming
slashes and splitting on `/`, there are at least three components, the
first is `rpc`, and the last two (service, method) are non-empty; the
tenant is the second component exactly when there are more than three
components, and `/rpc/tenantA/echo.Echo/Say` parses to tenant `tenantA`,
service `echo.Echo`, method `Say`. -/
theorem parseHTTPRequest_spec :
    (∀ path body r, ParseHTTPRequest path body = .ok r →
      3 ≤ (goSplitSlash (goTrimSlashes path)).length ∧
      (goSplitSlash (goTrimSlashes path)).getD 0 "" = "rpc" ∧
      (goSplitSlash (goTrimSlashes path)).getD
        ((goSplitSlash (goTrimSlashes path)).length - 2) "" ≠ "" ∧
      (goSplitSlash (goTrimSlashes path)).getD
        ((goSplitSlash (goTrimSlashes path)).length - 1) "" ≠ "" ∧
      r.serviceName = (goSplitSlash (goTrimSlashes path)).getD
        ((goSplitSlash (goTrimSlashes path)).length - 2) "" ∧
      r.methodName = (goSplitSlash (goTrimSlashes path)).getD
        ((goSplitSlash (goTrimSlashes path)).length - 1) "" ∧
      r.tenant = (if 3 < (goSplitSlash (goTrimSlashes path)).length then
        (goSplitSlash (goTrimSlashes path)).getD 1 "" else "")) ∧
    (∀ body, ParseHTTPRequest "/rpc/tenantA/echo.Echo/Say" body =
      .ok ⟨"tenantA", "echo.Echo", "Say", body⟩) := by
  constructor
  · intro path body r h
    unfold ParseHTTPRequest at h
    dsimp only at h
    set parts := goSplitSlash (goTrimSlashes path) with hp
    split_ifs at h with h1 h2 h3 h4 h5
    · injection h with h
      subst h
      exact ⟨by omega, by simpa using h2, fun hc => h4 hc, fun hc => h3 hc,
        rfl, rfl, by simp [h5]⟩
    · injection h with h
      subst h
      exact ⟨by omega, by simpa using h2, fun hc => h4 hc, fun hc => h3 hc,
        rfl, rfl, by simp [h5]⟩
  · intro body
    rfl

/-- Witness for C5 at the concrete path `/rpc/tenantA/echo.Echo/Say`. -/
theorem parseHTTPRequest_spec_witness :
    3 ≤ (goSplitSlash (goTrimSlashes "/rpc/tenantA/echo.Echo/Say")).length ∧
    (goSplitSlash (goTrimSlashes "/rpc/tenantA/echo.Echo/Say")).getD 0 "" = "rpc" ∧
    (goSplitSlash (goTrimSlashes "/rpc/tenantA/echo.Echo/Say")).getD
      ((goSplitSlash (goTrimSlashes "/rpc/tenantA/echo.Echo/Say")).length - 2) "" ≠ "" ∧
    (goSplitSlash (goTrimSlashes "/rpc/tenantA/echo.Echo/Say")).getD
      ((goSplitSlash (goTrimSlashes "/rpc/tenantA/echo.Echo/Say")).length - 1) "" ≠ "" ∧
    (HTTPRequest.mk "tenantA" "echo.Echo" "Say" []).serviceName =
      (goSplitSlash (goTrimSlashes "/rpc/tenantA/echo.Echo/Say")).getD
      ((goSplitSlash (goTrimSlashes "/rpc/tenantA/echo.Echo/Say")).length - 2) "" ∧
    (HTTPRequest.mk "tenantA" "echo.Echo" "Say" []).methodName =
      (goSplitSlash (goTrimSlashes "/rpc/tenantA/echo.Echo/Say")).getD
      ((goSplitSlash (goTrimSlashes "/rpc/tenantA/echo.Echo/Say")).length - 1) "" ∧
    (HTTPRequest.mk "tenantA" "echo.Echo" "Say" []).tenant =
      (if 3 < (goSplitSlash (goTrimSlashes "/rpc/tenantA/echo.Echo/Say")).length then
        (goSplitSlash (goTrimSlashes "/rpc/tenantA/echo.Echo/Say")).getD 1 "" else "") :=
  parseHTTPRequest_spec.1 "/rpc/tenantA/echo.Echo/Say" []
    ⟨"tenantA", "echo.Echo", "Say", []⟩ (parseHTTPRequest_spec.2 [])

/-- If some element of a list yields a result, `findSome?` yields one. -/
theorem isSome_findSome? {α β : Type} (f : α → Option β) :
    ∀ (lst : List α), (∃ x ∈ lst, (f x).isSome) → (lst.findSome? f).isSome := by
  intro lst
  induction lst with
  | nil => rintro ⟨x, hx, _⟩; cases hx
  | cons a as ih =>
    rintro ⟨x, hx, hfx⟩
    rw [List.findSome?_cons]
    match hfa : f a with
    | some b => rfl
    | none =>
      rcases List.mem_cons.mp hx with rfl | hxs
      · rw [hfa] at hfx; cases hfx
      · exact ih ⟨x, hxs, hfx⟩

/-- Completeness of the descriptor message search: whenever `fullName`
is one of the composed dotted names of a message list under `pfx`, the
search returns a message. -/
theorem findNestedInList_complete (fullName : String) :
    ∀ (l : List DescriptorProto) (pfx : String),
    fullName ∈ specMessageNamesList pfx l →
    (findNestedInList fullName l pfx).isSome := by
  intro l pfx hmem
  induction l, pfx using findNestedInList.induct fullName with
  | case1 pfx =>
    simp [specMessageNamesList] at hmem
  | case2 n nested rest pfx fn heq =>
    rw [findNestedInList]
    simp only [heq]
    rfl
  | case3 n nested rest pfx fn hne r hr ih =>
    rw [findNestedInList]
    simp only [hne, if_false, hr]
    rfl
  | case4 n nested rest pfx fn hne hnone ih1 ih2 =>
    rw [findNestedInList]
    simp only [hne, if_false, hnone]
    rw [specMessageNamesList] at hmem
    rcases List.mem_cons.mp hmem with heq | hmem2
    · exfalso
      apply hne
      simp [heq]
    · rcases List.mem_append.mp hmem2 with hn | hrest
      · have := ih1 hn
        rw [hnone] at this
        cases this
      · exact ih2 hrest

/-- C3 (amended): for every method resolved by `FindMethodDescriptor`
whose `input_type` equals a composed dotted name (package and nested
names joined with dots, no leading dot) of a message in some file of the
set, `FindMessageDescriptor` resolves it to a non-null descriptor, by
walking files in order, recursing into nested types and returning the
first match.  (Method input types written in protoc's leading-dot form
do not resolve; see the counterexample.) -/
theorem findMessageDescriptor_complete (fset : FileDescriptorSet)
    (serviceName methodName : String) (md : MethodDescriptorProto)
    (_hm : FindMethodDescriptor fset serviceName methodName = some md)
    (hin : ∃ file ∈ fset.file, md.inputType ∈ specFileMessageNames file) :
    (FindMessageDescriptor fset md.inputType).isSome := by
  obtain ⟨file, hfile, hname⟩ := hin
  apply isSome_findSome?
  refine ⟨file, hfile, ?_⟩
  exact findNestedInList_complete md.inputType file.messageType file.package hname

/-- Witness for C3 on a concrete set with a nested message. -/
theorem findMessageDescriptor_complete_witness :
    (FindMessageDescriptor fsetGood
      (MethodDescriptorProto.mk "M" "pkg.Outer.Inner" "pkg.Outer").inputType).isSome :=
  findMessageDescriptor_complete fsetGood "pkg.Svc" "M"
    (MethodDescriptorProto.mk "M" "pkg.Outer.Inner" "pkg.Outer")
    (by simp [FindMethodDescriptor, FindServiceDescriptor, fsetGood, fileGood])
    ⟨fileGood, List.mem_cons_self _ _,
      by simp [specFileMessageNames, specMessageNamesList, fileGood]⟩

/-- C3 counterexample: resolution of a method input type is not non-null
for every loaded set.  In a set whose method input type uses protoc's
standard leading-dot form `.pkg.Msg`, the method resolves but
`FindMessageDescriptor` returns null for its input type, because the
loader composes names as `pkg.Msg` without a leading dot; the same
message is found under the dot-free spelling. -/
theorem findMessageDescriptor_counterexample :
    FindMethodDescriptor fsetDot "pkg.Svc" "M"
      = some (MethodDescriptorProto.mk "M" ".pkg.Msg" ".pkg.Msg") ∧
    FindMessageDescriptor fsetDot ".pkg.Msg" = none ∧
    FindMessageDescriptor fsetDot "pkg.Msg"
      = some (DescriptorProto.mk "Msg" []) := by
  refine ⟨?_, ?_, ?_⟩
  · simp [FindMethodDescriptor, FindServiceDescriptor, fsetDot, fileDot]
  · simp [FindMessageDescriptor, findMessageInFile, findNestedInList, fsetDot, fileDot]
  · simp [FindMessageDescriptor, findMessageInFile, findNestedInList, fsetDot, fileDot]

/-- C1 (code evaluation at the failing input): on the first request for
a message type (empty cache), `createDynamicMessage` returns the very
instance it stores in the prototype cache — identity 0 both in the
returned message and in the cache entry — not a clone; only a subsequent
cache hit returns a fresh clone (identity 1). -/
theorem createDynamicMessage_returns_cached_prototype :
    (createDynamicMessage fsetEcho ⟨[], 0⟩ "echo.EchoRequest").2
      = .ok ⟨0, "echo.EchoRequest"⟩ ∧
    ((createDynamicMessage fsetEcho ⟨[], 0⟩ "echo.EchoRequest").1).cache.lookup
      "echo.EchoRequest" = some ⟨0, "echo.EchoRequest"⟩ ∧
    (createDynamicMessage fsetEcho
      (createDynamicMessage fsetEcho ⟨[], 0⟩ "echo.EchoRequest").1
      "echo.EchoRequest").2 = .ok ⟨1, "echo.EchoRequest"⟩ :=
  ⟨rfl, rfl, rfl⟩

/-- C4 (code evaluation at the failing input): for the standard inbound
path `/echo.Echo/Say`, the handler parses service `echo.Echo` and method
`Say`, passes only `Say` as `ProxyStream`'s `fullMethod`, and
`strings.Split("Say", "/")` has a single element, so the access at index
1 panics with an index out of range (discovery, balancing and dialing all
succeeding). -/
theorem handleUnknownService_panics :
    ParseServiceAndMethod "/echo.Echo/Say" = ("echo.Echo", "Say") ∧
    goSplitSlash "Say" = ["Say"] ∧
    handleUnknownService discoverOne dialOk ⟨0⟩ "/echo.Echo/Say"
      = .panicked "index out of range" :=
  ⟨rfl, rfl, rfl⟩

/-- Deleting a target from the pool removes its entry. -/
theorem lookup_filter_self :
    ∀ (pool : List (String × Conn)) (target : String),
    (pool.filter (fun p => p.1 ≠ target)).lookup target = none := by
  intro pool target
  rw [List.lookup_eq_none_iff]
  intro p hmem
  have h := (List.mem_filter.mp hmem).2
  simp at h
  simp [h]
  exact fun hc => h hc.symm

/-- Deleting a target from the pool leaves other targets' entries
unchanged. -/
theorem lookup_filter_other :
    ∀ (pool : List (String × Conn)) (target t' : String), t' ≠ target →
    (pool.filter (fun p => p.1 ≠ target)).lookup t' = pool.lookup t' := by
  intro pool target t' hne
  induction pool with
  | nil => rfl
  | cons a rest ih =>
    by_cases h : a.1 = target
    · have hf : (decide (a.1 ≠ target)) = false := by simp [h]
      have hk : (t' == a.1) = false := by
        simp
        rw [h]
        exact hne
      rw [List.filter_cons, hf]
      simp only [Bool.false_eq_true, if_false, ih]
      conv_rhs => rw [List.lookup]
      rw [hk]
    · have hf : (decide (a.1 ≠ target)) = true := by simp [h]
      rw [List.filter_cons, hf]
      simp only [if_true]
      rw [List.lookup, List.lookup]
      by_cases h3 : t' = a.1
      · have hk : (t' == a.1) = true := by simp [h3]
        rw [hk]
      · have hk : (t' == a.1) = false := by simp [h3]
        rw [hk, ih]

/-- C9 (amended): when the dial for a target fails and the pool holds no
usable connection for it, `GetConnection` returns the dial error, the
resulting pool holds no entry for the target (a stale entry is removed,
none is inserted), entries for other targets are untouched, and when no
prior entry existed the map is literally unchanged — so a failed dial is
never cached and a subsequent `GetConnection` dials afresh. -/
theorem getConnection_dial_failure (dial : String → Except String Conn)
    (pool : List (String × Conn)) (target : String) (e : String)
    (hd : dial target = .error e)
    (hstale : ∀ c, pool.lookup target = some c → connUsable c = false) :
    (getConnection dial pool target).2 = .error e ∧
    (getConnection dial pool target).1.lookup target = none ∧
    (∀ t', t' ≠ target →
      (getConnection dial pool target).1.lookup t' = pool.lookup t') ∧
    (pool.lookup target = none → (getConnection dial pool target).1 = pool) := by
  unfold getConnection
  match hl : pool.lookup target with
  | some conn =>
    have hu : connUsable conn = false := hstale conn hl
    dsimp only
    rw [hu]
    simp only [Bool.false_eq_true, if_false, hd]
    refine ⟨trivial, lookup_filter_self pool target,
      fun t' ht' => lookup_filter_other pool target t' ht', fun hnone => ?_⟩
    cases hnone
  | none =>
    dsimp only
    rw [hd]
    exact ⟨rfl, hl, fun t' _ => rfl, fun _ => rfl⟩

/-- Witness for C9 on an empty pool. -/
theorem getConnection_dial_failure_witness :
    (getConnection dialFail [] "10.0.0.1:50051").2 = .error "connection refused" ∧
    (getConnection dialFail [] "10.0.0.1:50051").1.lookup "10.0.0.1:50051" = none ∧
    (∀ t', t' ≠ "10.0.0.1:50051" →
      (getConnection dialFail [] "10.0.0.1:50051").1.lookup t'
        = ([] : List (String × Conn)).lookup t') ∧
    (([] : List (String × Conn)).lookup "10.0.0.1:50051" = none →
      (getConnection dialFail [] "10.0.0.1:50051").1 = []) :=
  getConnection_dial_failure dialFail [] "10.0.0.1:50051" "connection refused"
    rfl (fun _ hc => Option.noConfusion hc)

/-- C9 counterexample: the pool map is not always left unchanged by a
failed dial.  With a stale (transient-failure) entry for the target, the
entry is closed and deleted before the dial, so after the failed dial the
map went from a one-entry map to the empty map. -/
theorem getConnection_pool_changed_counterexample :
    (getConnection dialFail [("10.0.0.1:50051", connBad)] "10.0.0.1:50051").2
      = .error "connection refused" ∧
    (getConnection dialFail [("10.0.0.1:50051", connBad)] "10.0.0.1:50051").1
      = [] ∧
    [("10.0.0.1:50051", connBad)] ≠ ([] : List (String × Conn)) :=
  ⟨rfl, rfl, List.cons_ne_nil _ _⟩

/-- C2 (amended): a malformed request body is classified by the
transcoder as `InvalidArgument`, but the HTTP layer maps every
`ProxyHTTPRequest` failure — including `InvalidArgument` — to status
500; 400 is reserved for body-read and path-parse failures. -/
theorem handleRequest_maps_proxy_errors :
    (∀ (env : ProxyEnv) (fset : FileDescriptorSet) (st : MsgCacheState)
        (pool : List (String × Conn)) (lb : RRState) (path : String)
        (body : List Nat) (req : HTTPRequest) (e : RpcError),
      ParseHTTPRequest path body = .ok req →
      (ProxyHTTPRequest env fset st pool lb
          req.serviceName req.methodName body).outcome = .fail e →
      handleRequest env fset st pool lb true "POST" path (.ok body) = some 500) ∧
    (∀ (env : ProxyEnv) (fset : FileDescriptorSet) (st : MsgCacheState)
        (pool : List (String × Conn)) (lb : RRState)
        (serviceName methodName : String) (body : List Nat)
        (md : MethodDescriptorProto) (st' : MsgCacheState) (em : String),
      FindMethodDescriptor fset serviceName methodName = some md →
      md.inputType ≠ "" →
      jsonToProtobuf env fset st body md.inputType = (st', .error em) →
      (ProxyHTTPRequest env fset st pool lb serviceName methodName body).outcome
        = .fail (.status ⟨.invalidArgument,
            "failed to unmarshal request: " ++ em⟩)) := by
  constructor
  · intro env fset st pool lb path body req e hparse houtcome
    have hpath : path ≠ "/health" := by
      intro hp
      subst hp
      have : ParseHTTPRequest "/health" body = .error "invalid path format" := rfl
      rw [this] at hparse
      cases hparse
    unfold handleRequest
    rw [if_neg hpath]
    simp only [Bool.not_true, Bool.false_eq_true, if_false, ne_eq,
      not_true_eq_false, reduceIte]
    rw [hparse]
    dsimp only
    rw [houtcome]
  · intro env fset st pool lb serviceName methodName body md st' em hm hin hjson
    unfold ProxyHTTPRequest
    rw [hm]
    dsimp only
    rw [if_neg hin, hjson]

/-- Witness for C2 (amended) on the concrete echo set with a failing
JSON unmarshaller. -/
theorem handleRequest_maps_proxy_errors_witness :
    handleRequest envBadJSON fsetEcho ⟨[], 0⟩ [] ⟨0⟩ true "POST"
      "/rpc/echo.Echo/Say" (.ok [1, 2]) = some 500 ∧
    (ProxyHTTPRequest envBadJSON fsetEcho ⟨[], 0⟩ [] ⟨0⟩
        "echo.Echo" "Say" [1, 2]).outcome
      = .fail (.status ⟨.invalidArgument,
          "failed to unmarshal request: failed to unmarshal JSON: syntax error"⟩) := by
  constructor
  · exact handleRequest_maps_proxy_errors.1 envBadJSON fsetEcho ⟨[], 0⟩ [] ⟨0⟩
      "/rpc/echo.Echo/Say" [1, 2] ⟨"", "echo.Echo", "Say", [1, 2]⟩
      (.status ⟨.invalidArgument,
        "failed to unmarshal request: failed to unmarshal JSON: syntax error"⟩)
      rfl rfl
  · exact handleRequest_maps_proxy_errors.2 envBadJSON fsetEcho ⟨[], 0⟩ [] ⟨0⟩
      "echo.Echo" "Say" [1, 2] ⟨"Say", "echo.EchoRequest", "echo.EchoReply"⟩
      ⟨[("echo.EchoRequest", ⟨0, "echo.EchoRequest"⟩)], 1⟩
      "failed to unmarshal JSON: syntax error" rfl (by decide) rfl

/-- C2 counterexample: a POST to `/rpc/echo.Echo/Say` whose body fails
protobuf-JSON unmarshalling gets HTTP status 500, not 400, even though
the transcoder classifies the failure as `InvalidArgument`. -/
theorem handleRequest_400_counterexample :
    handleRequest envBadJSON fsetEcho ⟨[], 0⟩ [] ⟨0⟩ true "POST"
      "/rpc/echo.Echo/Say" (.ok [1, 2]) = some 500 ∧
    (ProxyHTTPRequest envBadJSON fsetEcho ⟨[], 0⟩ [] ⟨0⟩
        "echo.Echo" "Say" [1, 2]).outcome
      = .fail (.status ⟨.invalidArgument,
          "failed to unmarshal request: failed to unmarshal JSON: syntax error"⟩) ∧
    handleRequest envBadJSON fsetEcho ⟨[], 0⟩ [] ⟨0⟩ true "POST"
      "/rpc/echo.Echo/Say" (.ok [1, 2]) ≠ some 400 :=
  ⟨rfl, rfl, by decide⟩

/-- C8: `ProxyHTTPRequest` fails with `NotFound` when the method is
absent; fails with `Unavailable` when discovery errors, discovery
returns no instances (the round-robin balancer returns nil exactly on an
empty list), or the pool dial fails; and surfaces a backend invocation
error verbatim — same error value, hence same status code and message —
invoking exactly once (no retry). -/
theorem proxyHTTPRequest_error_mapping :
    (∀ (env : ProxyEnv) (fset : FileDescriptorSet) (st : MsgCacheState)
        (pool : List (String × Conn)) (lb : RRState) (s m : String)
        (body : List Nat),
      FindMethodDescriptor fset s m = none →
      (ProxyHTTPRequest env fset st pool lb s m body).outcome
        = .fail (.status ⟨.notFound, "method not found: " ++ s ++ "/" ++ m⟩)) ∧
    (∀ (lb : RRState) (instances : List ServiceInstance),
      (rrSelect lb instances).2 = .nil → instances = []) ∧
    (∀ (env : ProxyEnv) (fset : FileDescriptorSet) (st : MsgCacheState)
        (pool : List (String × Conn)) (lb : RRState) (s m : String)
        (body : List Nat) (md : MethodDescriptorProto) (st' : MsgCacheState)
        (req : Msg),
      FindMethodDescriptor fset s m = some md →
      md.inputType ≠ "" →
      jsonToProtobuf env fset st body md.inputType = (st', .ok req) →
      ((∀ de, env.discover s = .error de →
        (ProxyHTTPRequest env fset st pool lb s m body).outcome
          = .fail (.status ⟨.unavailable,
              "failed to discover service " ++ s ++ ": " ++ de⟩)) ∧
       (env.discover s = .ok [] →
        (ProxyHTTPRequest env fset st pool lb s m body).outcome
          = .fail (.status ⟨.unavailable,
              "no available instances for service: " ++ s⟩)) ∧
       (∀ instances inst pool' de,
        env.discover s = .ok instances →
        (rrSelect lb instances).2 = .inst inst →
        getConnection env.dial pool
            (inst.address ++ ":" ++ toString inst.port) = (pool', .error de) →
        (ProxyHTTPRequest env fset st pool lb s m body).outcome
          = .fail (.status ⟨.unavailable,
              "failed to connect to backend "
                ++ (inst.address ++ ":" ++ toString inst.port) ++ ": " ++ de⟩)) ∧
       (∀ instances inst pool' conn st2 resp e,
        env.discover s = .ok instances →
        (rrSelect lb instances).2 = .inst inst →
        getConnection env.dial pool
            (inst.address ++ ":" ++ toString inst.port) = (pool', .ok conn) →
        md.outputType ≠ "" →
        createDynamicMessage fset st' md.outputType = (st2, .ok resp) →
        env.invoke conn ("/" ++ s ++ "/" ++ m) req = .error e →
        (ProxyHTTPRequest env fset st pool lb s m body).outcome = .fail e ∧
        (ProxyHTTPRequest env fset st pool lb s m body).invokeCalls = 1))) := by
  refine ⟨?_, ?_, ?_⟩
  · intro env fset st pool lb s m body hm
    unfold ProxyHTTPRequest
    rw [hm]
  · intro lb instances hsel
    match instances with
    | [] => rfl
    | a :: rest =>
      rw [rrSelect] at hsel
      simp only [List.isEmpty_cons, Bool.false_eq_true, if_false] at hsel
      by_cases hc : 0 ≤ goMod (goIntOfUint64 ((lb.counter + 1) % 2 ^ 64))
          ((a :: rest).length : Int) ∧
          goMod (goIntOfUint64 ((lb.counter + 1) % 2 ^ 64))
            ((a :: rest).length : Int) < ((a :: rest).length : Int)
      · rw [if_pos hc] at hsel
        cases hsel
      · rw [if_neg hc] at hsel
        cases hsel
  · intro env fset st pool lb s m body md st' req hm hin hjson
    refine ⟨?_, ?_, ?_, ?_⟩
    · intro de hdisc
      unfold ProxyHTTPRequest
      rw [hm]
      dsimp only
      rw [if_neg hin, hjson]
      dsimp only
      rw [hdisc]
    · intro hdisc
      unfold ProxyHTTPRequest
      rw [hm]
      dsimp only
      rw [if_neg hin, hjson]
      dsimp only
      rw [hdisc]
      rfl
    · intro instances inst pool' de hdisc hsel hconn
      have hne : instances.isEmpty = false := by
        match instances with
        | [] => rw [rrSelect] at hsel; simp at hsel
        | a :: rest => rfl
      unfold ProxyHTTPRequest
      rw [hm]
      dsimp only
      rw [if_neg hin, hjson]
      dsimp only
      rw [hdisc]
      dsimp only
      rw [hne]
      simp only [Bool.false_eq_true, if_false]
      rw [hsel]
      dsimp only
      rw [hconn]
    · intro instances inst pool' conn st2 resp e hdisc hsel hconn hout hcreate hinv
      have hne : instances.isEmpty = false := by
        match instances with
        | [] => rw [rrSelect] at hsel; simp at hsel
        | a :: rest => rfl
      unfold ProxyHTTPRequest
      rw [hm]
      dsimp only
      rw [if_neg hin, hjson]
      dsimp only
      rw [hdisc]
      dsimp only
      rw [hne]
      simp only [Bool.false_eq_true, if_false]
      rw [hsel]
      dsimp only
      rw [hconn]
      dsimp only
      unfold invokeUnary
      rw [if_neg hout, hcreate]
      dsimp only
      rw [hinv]
      exact ⟨rfl, rfl⟩

/-- Witness for C8: a backend status error is surfaced verbatim with a
single invocation, on the concrete echo set. -/
theorem proxyHTTPRequest_error_mapping_witness :
    (ProxyHTTPRequest envBackendErr fsetEcho ⟨[], 0⟩ [] ⟨0⟩
        "echo.Echo" "Say" [1, 2]).outcome
      = .fail (.status ⟨.unknown, "backend exploded"⟩) ∧
    (ProxyHTTPRequest envBackendErr fsetEcho ⟨[], 0⟩ [] ⟨0⟩
        "echo.Echo" "Say" [1, 2]).invokeCalls = 1 :=
  (proxyHTTPRequest_error_mapping.2.2 envBackendErr fsetEcho ⟨[], 0⟩ [] ⟨0⟩
      "echo.Echo" "Say" [1, 2] ⟨"Say", "echo.EchoRequest", "echo.EchoReply"⟩
      ⟨[("echo.EchoRequest", ⟨0, "echo.EchoRequest"⟩)], 1⟩
      ⟨0, "echo.EchoRequest"⟩ rfl (by decide) rfl).2.2.2
    [instA] instA
    [("10.0.0.1:50051", ⟨1, .ready⟩)] ⟨1, .ready⟩
    ⟨[("echo.EchoReply", ⟨1, "echo.EchoReply"⟩),
      ("echo.EchoRequest", ⟨0, "echo.EchoRequest"⟩)], 2⟩
    ⟨1, "echo.EchoReply"⟩ (.status ⟨.unknown, "backend exploded"⟩)
    rfl rfl rfl (by decide) rfl rfl

end Gateway
